import Mathlib

/-!
Shallow embedding of `src/main.js`, the single-file Express inventory
service: an in-memory record collection (`inventory`) persisted as a JSON
snapshot (`inventory.json`), and a photo directory managed by multer.
HTTP plumbing (routing, swagger, CLI flags) is out of scope; each route
handler is embedded as a state-transition function on `ServerState`.
-/

/-- Photo file contents, a byte list. -/
abbrev Bytes := List Nat

/-- One inventory record, as stored in the `inventory` array:
`{ id, inventory_name, description, photoFilename }` (main.js:101-106).
`photoFilename := none` embeds JS `null`. -/
structure Item where
  id : String
  inventory_name : String
  description : String
  photoFilename : Option String
deriving Repr, DecidableEq

/-- Whole server state: the in-memory `inventory` array, the photo
directory `PHOTOS_DIR` (a map filename to bytes, embedded as an
association list), and the snapshot file `DB_FILE` (embedded by the
record sequence it encodes; `none` = absent). -/
structure ServerState where
  inventory : List Item
  photos : List (String × Bytes)
  dbFile : Option (List Item)
deriving Repr, DecidableEq

/-- Request context used to derive photo URLs (main.js:64-67). -/
structure Req where
  protocol : String
  host : String
deriving Repr, DecidableEq

/-! ### JS number/string conversions used by `genId` (main.js:48-49)

`genId` is `String(Math.max(0, ...inventory.map((i) => Number(i.id))) + 1)`.
We model `String(n)` and `Number(s)` for the decimal-numeral strings the
program itself generates (every id is produced by `genId`); `Number` on a
non-numeral is NaN in JS, which never arises on reachable ids. -/

/-- The decimal digit character for `d < 10` (JS numeral formation). -/
def digitChar (d : Nat) : Char := Char.ofNat (48 + d)

/-- Decimal digit list of `n`, most significant first; `fuel` bounds the
recursion depth (any `fuel > n` is enough) so the definition reduces by
structural recursion. -/
def natDigitsF (fuel n : Nat) : List Char :=
  match fuel with
  | 0 => []
  | fuel' + 1 =>
    if n < 10 then [digitChar n]
    else natDigitsF fuel' (n / 10) ++ [digitChar (n % 10)]

/-- Decimal digit list of `n`, most significant first. -/
def natDigits (n : Nat) : List Char := natDigitsF (n + 1) n

/-- JS `String(n)` for a natural `n`: canonical decimal numeral. -/
def natToString (n : Nat) : String := ⟨natDigits n⟩

/-- JS `Number(s)` restricted to decimal numerals: digit-fold value. -/
def jsNumber (s : String) : Nat :=
  s.data.foldl (fun a c => 10 * a + (c.toNat - 48)) 0

/-- `Math.max(0, ...xs)`. -/
def jsMax0 (xs : List Nat) : Nat := xs.foldl max 0

/-- `genId` (main.js:48-49). -/
def genId (inv : List Item) : String :=
  natToString (jsMax0 (inv.map (fun i => jsNumber i.id)) + 1)

/-! ### Persistence and small helpers -/

/-- `loadInventory` (main.js:34-40): parse the snapshot file, returning the
empty collection when the file is absent (readFileSync throws) or its
content is unparsable (`JSON.parse` throws). The concrete JSON grammar is
irrelevant to the claims, so the parser is a parameter. -/
def loadInventory (contents : Option String)
    (parse : String → Option (List Item)) : List Item :=
  match contents with
  | none => []
  | some c => (parse c).getD []

/-- `saveInventory` (main.js:44-46): overwrite the snapshot file with the
current collection. -/
def saveInventory (s : ServerState) : ServerState :=
  { s with dbFile := some s.inventory }

/-- `findItem` (main.js:62): first record with the given id. -/
def findItem (inv : List Item) (id : String) : Option Item :=
  inv.find? (fun i => i.id == id)

/-- JS truthiness of `item.photoFilename` (null and "" are falsy). -/
def truthyFilename : Option String → Bool
  | none => false
  | some f => f != ""

/-- `photoUrl` (main.js:64-67). -/
def photoUrl (req : Req) (item : Item) : Option String :=
  if truthyFilename item.photoFilename then
    some (req.protocol ++ "://" ++ req.host ++ "/inventory/" ++ item.id ++ "/photo")
  else none

/-- Response DTO `{id, inventory_name, description, photo_url}`
(main.js:69-74). -/
structure Dto where
  id : String
  inventory_name : String
  description : String
  photo_url : Option String
deriving Repr, DecidableEq

/-- `dto` (main.js:69-74). -/
def dto (req : Req) (item : Item) : Dto :=
  { id := item.id
    inventory_name := item.inventory_name
    description := item.description
    photo_url := photoUrl req item }

/-- The observable outcomes the handlers produce. -/
inductive Response where
  /-- 404 `{error: 'Not found'}` / 404 text `Not found`. -/
  | errNotFound
  /-- 400 `{error: msg}` (validation failure). -/
  | errValidation (msg : String)
  /-- JSON body of one item view, with HTTP status. -/
  | itemJson (status : Nat) (d : Dto)
  /-- JSON array of item views. -/
  | listJson (ds : List Dto)
  /-- 200 `{message: 'Deleted'}`. -/
  | deletedMsg
  /-- 200 `{id, photo_url, message: 'Photo updated'}`. -/
  | photoUpdated (id : String) (url : Option String)
  /-- 200 raw file bytes with a Content-Type. -/
  | fileContent (contentType : String) (bytes : Bytes)
deriving Repr, DecidableEq

/-- Filesystem actions on the photo directory, in the order the handler
performs them (multer's save happens before the handler body runs). -/
inductive FsEvent where
  | save (name : String) (bytes : Bytes)
  | unlink (name : String)
deriving Repr, DecidableEq

/-- `upload.single('photo')` (main.js:55): when the request carries a
file, multer writes its bytes under a fresh generated filename in
`PHOTOS_DIR` before the route handler body runs. The generated filename
is the first component of `file`. -/
def multerSave (file : Option (String × Bytes)) (s : ServerState) : ServerState :=
  match file with
  | none => s
  | some (f, b) => { s with photos := (f, b) :: s.photos }

/-- `fs.promises.unlink(path.join(PHOTOS_DIR, f))`: remove the file named
`f` from the photo directory (best-effort: absence is not an error). -/
def unlinkPhoto (f : String) (photos : List (String × Bytes)) : List (String × Bytes) :=
  photos.filter (fun e => e.1 != f)

/-- Read the bytes of photo file `f`, if present. -/
def lookupPhoto (f : String) (photos : List (String × Bytes)) : Option Bytes :=
  (photos.find? (fun e => e.1 == f)).map (·.2)

/-- JS `s.trim()`: strip leading and trailing whitespace (embedded on the
character list so it evaluates by kernel reduction). -/
def jsTrim (s : String) : String :=
  ⟨((s.data.dropWhile Char.isWhitespace).reverse.dropWhile Char.isWhitespace).reverse⟩

/-- JS blank test `!inventory_name || !inventory_name.trim()`
(main.js:97): absent field, empty string, or whitespace-only string. -/
def jsBlank : Option String → Bool
  | none => true
  | some s => s == "" || jsTrim s == ""

/-! ### Route handlers -/

/-- Body of a `POST /register` request: the two form fields (absent
fields embed as `none`), plus the uploaded photo as multer presents it
(generated filename and bytes). -/
structure RegisterReq where
  inventory_name : Option String
  description : Option String
  file : Option (String × Bytes)
deriving Repr, DecidableEq

/-- `POST /register` handler (main.js:94-112), multer middleware
included: save the upload (if any), reject a blank `inventory_name` with
400, otherwise append a new record with a generated id and persist. -/
def registerStep (req : Req) (r : RegisterReq) (s : ServerState) :
    ServerState × Response :=
  let s1 := multerSave r.file s
  if jsBlank r.inventory_name then
    (s1, .errValidation "inventory_name is required")
  else
    let item : Item :=
      { id := genId s1.inventory
        inventory_name := r.inventory_name.getD ""
        description := r.description.getD ""
        photoFilename := r.file.map (·.1) }
    let s2 := saveInventory { s1 with inventory := s1.inventory ++ [item] }
    (s2, .itemJson 201 (dto req item))

/-- `GET /inventory` handler (main.js:117-119). -/
def listStep (req : Req) (s : ServerState) : ServerState × Response :=
  (s, .listJson (s.inventory.map (dto req)))

/-- `GET /inventory/:id` handler (main.js:124-128). -/
def getStep (req : Req) (id : String) (s : ServerState) : ServerState × Response :=
  match findItem s.inventory id with
  | none => (s, .errNotFound)
  | some item => (s, .itemJson 200 (dto req item))

/-- Body of a `PUT /inventory/:id` request; `none` embeds an absent
(`undefined`) field. -/
structure UpdateReq where
  inventory_name : Option String
  description : Option String
deriving Repr, DecidableEq

/-- Replace the first record whose id is `id` (the object `findItem`
returned, mutated in place in JS) by `item'`. -/
def setFirst (inv : List Item) (id : String) (item' : Item) : List Item :=
  match inv with
  | [] => []
  | i :: rest => if i.id == id then item' :: rest else i :: setFirst rest id item'

/-- `PUT /inventory/:id` handler (main.js:129-140): patch only the fields
present in the body, persist, and return the updated record's view. -/
def updateStep (req : Req) (id : String) (r : UpdateReq) (s : ServerState) :
    ServerState × Response :=
  match findItem s.inventory id with
  | none => (s, .errNotFound)
  | some item =>
    let item' : Item :=
      { item with
        inventory_name := r.inventory_name.getD item.inventory_name
        description := r.description.getD item.description }
    let s' := saveInventory { s with inventory := setFirst s.inventory id item' }
    (s', .itemJson 200 (dto req item'))

/-- Remove the first record whose id is `id`
(`findIndex` + `splice(index, 1)`, main.js:142-145): returns the removed
record and the remaining sequence. -/
def removeFirst (inv : List Item) (id : String) : Option (Item × List Item) :=
  match inv with
  | [] => none
  | i :: rest =>
    if i.id == id then some (i, rest)
    else match removeFirst rest id with
      | none => none
      | some (r, rest') => some (r, i :: rest')

/-- `DELETE /inventory/:id` handler (main.js:141-154): splice the record
out, unlink its photo file when it has one (truthy filename), persist. -/
def deleteStep (id : String) (s : ServerState) : ServerState × Response :=
  match removeFirst s.inventory id with
  | none => (s, .errNotFound)
  | some (removed, inv') =>
    let photos' :=
      match removed.photoFilename with
      | some f => if f != "" then unlinkPhoto f s.photos else s.photos
      | none => s.photos
    (saveInventory { s with inventory := inv', photos := photos' }, .deletedMsg)

/-- `GET /inventory/:id/photo` handler (main.js:159-167): 404 when the
record is absent, has no truthy filename, or the file is missing;
otherwise serve the stored bytes typed `jpg` (Content-Type image/jpeg). -/
def getPhotoStep (id : String) (s : ServerState) : ServerState × Response :=
  match findItem s.inventory id with
  | none => (s, .errNotFound)
  | some item =>
    if truthyFilename item.photoFilename then
      match item.photoFilename with
      | none => (s, .errNotFound)
      | some f =>
        match lookupPhoto f s.photos with
        | none => (s, .errNotFound)
        | some b => (s, .fileContent "image/jpeg" b)
    else (s, .errNotFound)

/-- `PUT /inventory/:id/photo` handler (main.js:168-187), multer
included: multer saves the upload first; then 404 on unknown id, 400 on
missing file; otherwise unlink the old file (if truthy), set the new
filename, persist. Also returns the filesystem event trace in order. -/
def putPhotoFull (req : Req) (id : String) (file : Option (String × Bytes))
    (s : ServerState) : ServerState × Response × List FsEvent :=
  let s1 := multerSave file s
  let tr0 : List FsEvent := match file with
    | none => []
    | some (f, b) => [.save f b]
  match findItem s1.inventory id with
  | none => (s1, .errNotFound, tr0)
  | some item =>
    match file with
    | none => (s1, .errValidation "photo file is required", tr0)
    | some (f, _b) =>
      let (photos', tr1) :=
        match item.photoFilename with
        | some old =>
          if old != "" then (unlinkPhoto old s1.photos, tr0 ++ [.unlink old])
          else (s1.photos, tr0)
        | none => (s1.photos, tr0)
      let item' : Item := { item with photoFilename := some f }
      let s2 := saveInventory
        { s1 with inventory := setFirst s1.inventory id item', photos := photos' }
      (s2, .photoUpdated item'.id (photoUrl req item'), tr1)

/-- `PUT /inventory/:id/photo`: state and response only. -/
def putPhotoStep (req : Req) (id : String) (file : Option (String × Bytes))
    (s : ServerState) : ServerState × Response :=
  ((putPhotoFull req id file s).1, (putPhotoFull req id file s).2.1)

/-- The filesystem event trace of `PUT /inventory/:id/photo`. -/
def putPhotoTrace (req : Req) (id : String) (file : Option (String × Bytes))
    (s : ServerState) : List FsEvent :=
  (putPhotoFull req id file s).2.2

/-- `a` occurs strictly before (the first occurrence of) `b` in `l`. -/
def precedes (a b : FsEvent) (l : List FsEvent) : Bool :=
  match l with
  | [] => false
  | x :: t => if x == b then false else if x == a then t.contains b else precedes a b t

/-! ### The no-orphan invariant (spec section 3) -/

/-- Every non-null photo reference resolves to exactly one stored asset. -/
def refsResolve (s : ServerState) : Bool :=
  s.inventory.all (fun i =>
    match i.photoFilename with
    | none => true
    | some f => s.photos.countP (fun e => e.1 == f) == 1)

/-- Every stored asset is referenced by some record. -/
def allReferenced (s : ServerState) : Bool :=
  s.photos.all (fun e => s.inventory.any (fun i => i.photoFilename == some e.1))

/-- The spec's no-orphan invariant. -/
def noOrphans (s : ServerState) : Bool := refsResolve s && allReferenced s

/-- The non-null photo references of the records, in order. -/
def refKeys (inv : List Item) : List String := inv.filterMap (·.photoFilename)

/-- Wellformedness: the invariant, plus distinct records hold distinct
references and no reference is the empty string (both hold in every
reachable state: multer filenames are fresh and non-empty). -/
def wfState (s : ServerState) : Prop :=
  noOrphans s = true ∧ (refKeys s.inventory).Nodup ∧
    ∀ i ∈ s.inventory, i.photoFilename ≠ some ""

instance : DecidablePred wfState := fun s => by
  unfold wfState; infer_instance

/-- A fresh upload: the generated filename is non-empty and not already
present in the photo directory (multer guarantees both). -/
def freshFile (file : Option (String × Bytes)) (s : ServerState) : Bool :=
  match file with
  | none => true
  | some (f, _) => f != "" && s.photos.all (fun e => e.1 != f)

/-! ### Helper lemmas about the list operations -/

theorem findItem_id (inv : List Item) (id : String) (item : Item)
    (h : findItem inv id = some item) : item.id = id := by
  unfold findItem at h
  have := List.find?_some h
  simpa using this

theorem findItem_none_iff (inv : List Item) (id : String) :
    findItem inv id = none ↔ ∀ i ∈ inv, i.id ≠ id := by
  simp [findItem, List.find?_eq_none]

theorem findItem_decomp (inv : List Item) (id : String) (item : Item)
    (h : findItem inv id = some item) :
    ∃ pre post, inv = pre ++ item :: post ∧ ∀ i ∈ pre, i.id ≠ id := by
  induction inv with
  | nil => simp [findItem] at h
  | cons a t ih =>
    unfold findItem at h
    by_cases ha : a.id = id
    · rw [List.find?_cons_of_pos _ (by simpa using ha)] at h
      obtain rfl : a = item := by injection h
      exact ⟨[], t, rfl, by simp⟩
    · rw [List.find?_cons_of_neg _ (by simpa using ha)] at h
      obtain ⟨pre, post, rfl, hpre⟩ := ih h
      refine ⟨a :: pre, post, rfl, ?_⟩
      intro i hi
      rcases List.mem_cons.mp hi with rfl | hi
      · exact ha
      · exact hpre i hi

theorem findItem_append_cons (pre post : List Item) (x : Item) (id : String)
    (hpre : ∀ i ∈ pre, i.id ≠ id) (hx : x.id = id) :
    findItem (pre ++ x :: post) id = some x := by
  induction pre with
  | nil => simp [findItem, List.find?_cons_of_pos, hx]
  | cons a t ih =>
    have ha : a.id ≠ id := hpre a (by simp)
    simp only [List.cons_append]
    unfold findItem
    rw [List.find?_cons_of_neg _ (by simpa using ha)]
    exact ih (fun i hi => hpre i (by simp [hi]))

theorem setFirst_decomp (pre post : List Item) (id : String) (item x : Item)
    (hpre : ∀ i ∈ pre, i.id ≠ id) (hid : item.id = id) :
    setFirst (pre ++ item :: post) id x = pre ++ x :: post := by
  induction pre with
  | nil => simp [setFirst, hid]
  | cons a t ih =>
    have ha : a.id ≠ id := hpre a (by simp)
    simp only [List.cons_append, setFirst, List.append_eq]
    rw [if_neg (by simpa using ha)]
    rw [ih (fun i hi => hpre i (by simp [hi]))]

theorem removeFirst_decomp (pre post : List Item) (id : String) (item : Item)
    (hpre : ∀ i ∈ pre, i.id ≠ id) (hid : item.id = id) :
    removeFirst (pre ++ item :: post) id = some (item, pre ++ post) := by
  induction pre with
  | nil => simp [removeFirst, hid]
  | cons a t ih =>
    have ha : a.id ≠ id := hpre a (by simp)
    simp only [List.cons_append, removeFirst, List.append_eq]
    rw [if_neg (by simpa using ha)]
    rw [ih (fun i hi => hpre i (by simp [hi]))]

theorem removeFirst_none_iff (inv : List Item) (id : String) :
    removeFirst inv id = none ↔ ∀ i ∈ inv, i.id ≠ id := by
  induction inv with
  | nil => simp [removeFirst]
  | cons a t ih =>
    unfold removeFirst
    by_cases ha : a.id = id
    · rw [if_pos (by simpa using ha)]
      simp [ha]
    · rw [if_neg (by simpa using ha)]
      constructor
      · intro h i hi
        rcases List.mem_cons.mp hi with rfl | hi
        · exact ha
        · have ht : removeFirst t id = none := by
            cases hr : removeFirst t id with
            | none => rfl
            | some p => rw [hr] at h; cases p; simp at h
          exact (ih.mp ht) i hi
      · intro h
        have ht : removeFirst t id = none := ih.mpr (fun i hi => h i (by simp [hi]))
        rw [ht]

/-! ### Fold-max lemmas for `genId` -/

theorem init_le_foldl_max (l : List Nat) (a : Nat) : a ≤ l.foldl max a := by
  induction l generalizing a with
  | nil => simp
  | cons x t ih => exact le_trans (le_max_left a x) (ih (max a x))

theorem le_foldl_max (l : List Nat) (a b : Nat) (hb : b ∈ l) : b ≤ l.foldl max a := by
  induction l generalizing a with
  | nil => simp at hb
  | cons x t ih =>
    rcases List.mem_cons.mp hb with rfl | hb
    · exact le_trans (le_max_right a b) (init_le_foldl_max t (max a b))
    · exact ih (max a x) hb

theorem foldl_max_mem (l : List Nat) (a : Nat) :
    l.foldl max a = a ∨ l.foldl max a ∈ l := by
  induction l generalizing a with
  | nil => left; rfl
  | cons x t ih =>
    rcases ih (max a x) with h | h
    · rcases Nat.le_total a x with hax | hxa
      · right
        rw [List.foldl_cons, h, max_eq_right hax]
        exact List.mem_cons_self x t
      · left
        rw [List.foldl_cons, h, max_eq_left hxa]
    · right
      exact List.mem_cons_of_mem x h

/-! ### Decimal numeral roundtrip -/

theorem digitChar_toNat (d : Nat) (h : d < 10) : (digitChar d).toNat = 48 + d := by
  unfold digitChar
  interval_cases d <;> decide

theorem foldl_natDigitsF (fuel : Nat) : ∀ n a : Nat, n < fuel →
    (natDigitsF fuel n).foldl (fun x c => 10 * x + (c.toNat - 48)) a =
      a * 10 ^ (natDigitsF fuel n).length + n := by
  induction fuel with
  | zero => omega
  | succ fuel' ih =>
    intro n a h
    by_cases h10 : n < 10
    · unfold natDigitsF
      simp [h10, List.foldl_cons, digitChar_toNat n h10]
      omega
    · have hd : n / 10 < n := Nat.div_lt_self (by omega) (by omega)
      unfold natDigitsF
      simp only [h10, if_false]
      rw [List.foldl_append, ih (n / 10) a (by omega)]
      have hm : n % 10 < 10 := Nat.mod_lt n (by omega)
      simp [List.foldl_cons, digitChar_toNat (n % 10) hm, List.length_append]
      have := Nat.div_add_mod n 10
      ring_nf
      omega

theorem jsNumber_natToString (n : Nat) : jsNumber (natToString n) = n := by
  unfold jsNumber natToString natDigits
  have := foldl_natDigitsF (n + 1) n 0 (by omega)
  simpa using this

theorem natToString_injective {m n : Nat} (h : natToString m = natToString n) :
    m = n := by
  have := congrArg jsNumber h
  rwa [jsNumber_natToString, jsNumber_natToString] at this

/-! ### Small facts about the middleware step -/

theorem multerSave_inventory (file : Option (String × Bytes)) (s : ServerState) :
    (multerSave file s).inventory = s.inventory := by
  cases file <;> rfl

theorem multerSave_dbFile (file : Option (String × Bytes)) (s : ServerState) :
    (multerSave file s).dbFile = s.dbFile := by
  cases file <;> rfl

theorem lookupPhoto_unlink (f : String) (ps : List (String × Bytes)) :
    lookupPhoto f (unlinkPhoto f ps) = none := by
  simp only [lookupPhoto, unlinkPhoto, Option.map_eq_none']
  rw [List.find?_eq_none]
  intro e he
  have := (List.mem_filter.mp he).2
  simp only [bne_iff_ne, ne_eq] at this
  simpa using this

/-! ### Claim theorems -/

/-- C7: on process start the collection is loaded from the persisted
snapshot file; an absent file or unparsable content silently yields the
empty collection. -/
theorem C7_load_snapshot_defaults_empty
    (parse : String → Option (List Item)) (bad good : String) (inv : List Item)
    (hbad : parse bad = none) (hgood : parse good = some inv) :
    loadInventory none parse = [] ∧
    loadInventory (some bad) parse = [] ∧
    loadInventory (some good) parse = inv := by
  refine ⟨rfl, ?_, ?_⟩
  · simp [loadInventory, hbad]
  · simp [loadInventory, hgood]

/-- C7 witness: a concrete parser, an unparsable content, a good one. -/
theorem C7_witness :
    loadInventory none (fun c => if c = "[]" then some [] else none) = [] ∧
    loadInventory (some "corrupt") (fun c => if c = "[]" then some [] else none) = [] ∧
    loadInventory (some "[]") (fun c => if c = "[]" then some [] else none) = [] :=
  C7_load_snapshot_defaults_empty (fun c => if c = "[]" then some [] else none)
    "corrupt" "[]" [] (by simp) (by simp)

/-- C10: reading the photo of a record whose referenced file exists
always serves the stored bytes with Content-Type image/jpeg, whatever
bytes were uploaded (no format detection). -/
theorem C10_photo_served_as_jpeg (s : ServerState) (id : String) (item : Item)
    (f : String) (b : Bytes)
    (hfind : findItem s.inventory id = some item)
    (hph : item.photoFilename = some f) (hf : f ≠ "")
    (hb : lookupPhoto f s.photos = some b) :
    getPhotoStep id s = (s, .fileContent "image/jpeg" b) := by
  unfold getPhotoStep
  rw [hfind]
  simp [truthyFilename, hph, hf, hb]

/-- C10 witness: non-JPEG bytes are still served as image/jpeg. -/
theorem C10_witness :
    getPhotoStep "1" ⟨[⟨"1", "A", "", some "p1"⟩], [("p1", [0, 1, 2])], some []⟩ =
      (⟨[⟨"1", "A", "", some "p1"⟩], [("p1", [0, 1, 2])], some []⟩,
        .fileContent "image/jpeg" [0, 1, 2]) :=
  C10_photo_served_as_jpeg _ "1" ⟨"1", "A", "", some "p1"⟩ "p1" [0, 1, 2]
    (by decide) rfl (by decide) (by decide)

/-- C9: a photo-replace on an id not in the collection returns NotFound
and leaves the collection and snapshot unchanged, yet the uploaded bytes
have already been written to the photo directory and are not rolled
back, leaving an unreferenced asset. -/
theorem C9_notfound_upload_left_orphaned (req : Req) (s : ServerState)
    (id f : String) (b : Bytes)
    (hfind : findItem s.inventory id = none)
    (href : ∀ i ∈ s.inventory, i.photoFilename ≠ some f) :
    putPhotoStep req id (some (f, b)) s =
      ({ s with photos := (f, b) :: s.photos }, .errNotFound) ∧
    (putPhotoStep req id (some (f, b)) s).1.inventory = s.inventory ∧
    (putPhotoStep req id (some (f, b)) s).1.dbFile = s.dbFile ∧
    lookupPhoto f (putPhotoStep req id (some (f, b)) s).1.photos = some b ∧
    ∀ i ∈ (putPhotoStep req id (some (f, b)) s).1.inventory,
      i.photoFilename ≠ some f := by
  have hmain : putPhotoStep req id (some (f, b)) s =
      ({ s with photos := (f, b) :: s.photos }, .errNotFound) := by
    simp [putPhotoStep, putPhotoFull, multerSave, hfind]
  refine ⟨hmain, ?_, ?_, ?_, ?_⟩
  · rw [hmain]
  · rw [hmain]
  · rw [hmain]
    simp [lookupPhoto]
  · rw [hmain]
    exact href

/-- C9 witness. -/
theorem C9_witness :
    putPhotoStep ⟨"http", "h"⟩ "7" (some ("up1", [4, 5])) ⟨[⟨"1", "A", "", none⟩], [], some [⟨"1", "A", "", none⟩]⟩ =
      (⟨[⟨"1", "A", "", none⟩], [("up1", [4, 5])], some [⟨"1", "A", "", none⟩]⟩, .errNotFound) ∧
    (putPhotoStep ⟨"http", "h"⟩ "7" (some ("up1", [4, 5])) ⟨[⟨"1", "A", "", none⟩], [], some [⟨"1", "A", "", none⟩]⟩).1.inventory = [⟨"1", "A", "", none⟩] ∧
    (putPhotoStep ⟨"http", "h"⟩ "7" (some ("up1", [4, 5])) ⟨[⟨"1", "A", "", none⟩], [], some [⟨"1", "A", "", none⟩]⟩).1.dbFile = some [⟨"1", "A", "", none⟩] ∧
    lookupPhoto "up1" (putPhotoStep ⟨"http", "h"⟩ "7" (some ("up1", [4, 5])) ⟨[⟨"1", "A", "", none⟩], [], some [⟨"1", "A", "", none⟩]⟩).1.photos = some [4, 5] ∧
    ∀ i ∈ (putPhotoStep ⟨"http", "h"⟩ "7" (some ("up1", [4, 5])) ⟨[⟨"1", "A", "", none⟩], [], some [⟨"1", "A", "", none⟩]⟩).1.inventory,
      i.photoFilename ≠ some "up1" :=
  C9_notfound_upload_left_orphaned ⟨"http", "h"⟩ ⟨[⟨"1", "A", "", none⟩], [], some [⟨"1", "A", "", none⟩]⟩
    "7" "up1" [4, 5] (by decide) (by decide)

/-- C8: the non-blank-name rule is not preserved by update — patching an
existing record with a blank `inventory_name` succeeds, stores the blank
value as the name, and persists the snapshot. -/
theorem C8_update_accepts_blank_name (req : Req) (s : ServerState)
    (id : String) (item : Item) (nm : String)
    (hfind : findItem s.inventory id = some item)
    (_hblank : jsTrim nm = "") :
    (updateStep req id ⟨some nm, none⟩ s).2 =
      .itemJson 200 (dto req { item with inventory_name := nm }) ∧
    findItem (updateStep req id ⟨some nm, none⟩ s).1.inventory id =
      some { item with inventory_name := nm } ∧
    (updateStep req id ⟨some nm, none⟩ s).1.dbFile =
      some (updateStep req id ⟨some nm, none⟩ s).1.inventory := by
  have hid := findItem_id _ _ _ hfind
  obtain ⟨pre, post, hinv, hpre⟩ := findItem_decomp _ _ _ hfind
  refine ⟨by simp [updateStep, hfind], ?_, by simp [updateStep, hfind, saveInventory]⟩
  simp only [updateStep, hfind, saveInventory]
  rw [hinv, setFirst_decomp pre post id item _ hpre hid]
  exact findItem_append_cons pre post _ id hpre hid

/-- C8 witness. -/
theorem C8_witness :
    (updateStep ⟨"http", "h"⟩ "1" ⟨some "", none⟩ ⟨[⟨"1", "A", "d", none⟩], [], some [⟨"1", "A", "d", none⟩]⟩).2 =
      .itemJson 200 (dto ⟨"http", "h"⟩ ⟨"1", "", "d", none⟩) ∧
    findItem (updateStep ⟨"http", "h"⟩ "1" ⟨some "", none⟩ ⟨[⟨"1", "A", "d", none⟩], [], some [⟨"1", "A", "d", none⟩]⟩).1.inventory "1" =
      some ⟨"1", "", "d", none⟩ ∧
    (updateStep ⟨"http", "h"⟩ "1" ⟨some "", none⟩ ⟨[⟨"1", "A", "d", none⟩], [], some [⟨"1", "A", "d", none⟩]⟩).1.dbFile =
      some (updateStep ⟨"http", "h"⟩ "1" ⟨some "", none⟩ ⟨[⟨"1", "A", "d", none⟩], [], some [⟨"1", "A", "d", none⟩]⟩).1.inventory :=
  C8_update_accepts_blank_name ⟨"http", "h"⟩ ⟨[⟨"1", "A", "d", none⟩], [], some [⟨"1", "A", "d", none⟩]⟩
    "1" ⟨"1", "A", "d", none⟩ "" (by decide) (by decide)

/-- C6: update applies only the supplied fields: a description-only
patch leaves the name unchanged, and an empty patch is a no-op that
returns the unmodified record. -/
theorem C6_update_partial_patch (req : Req) (s : ServerState)
    (id : String) (item : Item) (d : String)
    (hfind : findItem s.inventory id = some item)
    (hsync : s.dbFile = some s.inventory) :
    (updateStep req id ⟨none, some d⟩ s).2 =
      .itemJson 200 (dto req { item with description := d }) ∧
    findItem (updateStep req id ⟨none, some d⟩ s).1.inventory id =
      some { item with description := d } ∧
    updateStep req id ⟨none, none⟩ s = (s, .itemJson 200 (dto req item)) := by
  have hid := findItem_id _ _ _ hfind
  obtain ⟨pre, post, hinv, hpre⟩ := findItem_decomp _ _ _ hfind
  refine ⟨by simp [updateStep, hfind], ?_, ?_⟩
  · simp only [updateStep, hfind, saveInventory]
    rw [hinv, setFirst_decomp pre post id item _ hpre hid]
    exact findItem_append_cons pre post _ id hpre hid
  · have heta : ({ item with
        inventory_name := (none : Option String).getD item.inventory_name,
        description := (none : Option String).getD item.description } : Item) = item := rfl
    simp only [updateStep, hfind, heta]
    rw [hinv, setFirst_decomp pre post id item item hpre hid, ← hinv]
    cases s with
    | mk inv ph db =>
      simp only at hsync
      simp [saveInventory, hsync]

/-- C6 witness. -/
theorem C6_witness :
    (updateStep ⟨"http", "h"⟩ "1" ⟨none, some "x"⟩ ⟨[⟨"1", "A", "d", none⟩], [], some [⟨"1", "A", "d", none⟩]⟩).2 =
      .itemJson 200 (dto ⟨"http", "h"⟩ ⟨"1", "A", "x", none⟩) ∧
    findItem (updateStep ⟨"http", "h"⟩ "1" ⟨none, some "x"⟩ ⟨[⟨"1", "A", "d", none⟩], [], some [⟨"1", "A", "d", none⟩]⟩).1.inventory "1" =
      some ⟨"1", "A", "x", none⟩ ∧
    updateStep ⟨"http", "h"⟩ "1" ⟨none, none⟩ ⟨[⟨"1", "A", "d", none⟩], [], some [⟨"1", "A", "d", none⟩]⟩ =
      (⟨[⟨"1", "A", "d", none⟩], [], some [⟨"1", "A", "d", none⟩]⟩,
        .itemJson 200 (dto ⟨"http", "h"⟩ ⟨"1", "A", "d", none⟩)) :=
  C6_update_partial_patch ⟨"http", "h"⟩ ⟨[⟨"1", "A", "d", none⟩], [], some [⟨"1", "A", "d", none⟩]⟩
    "1" ⟨"1", "A", "d", none⟩ "x" (by decide) rfl

/-- C4: deleting an existing item removes the record (a subsequent get
is NotFound) and its referenced asset (a subsequent asset lookup is
NotFound); deleting an unknown id returns NotFound with the state
unchanged, so a repeated delete of the same id returns NotFound. -/
theorem C4_delete_cascades_and_idempotent (req : Req) (s : ServerState)
    (id : String) (item : Item) (f : String) (id2 : String)
    (hfind : findItem s.inventory id = some item)
    (hnodup : (s.inventory.map (fun i => i.id)).Nodup)
    (hph : item.photoFilename = some f) (hf : f ≠ "")
    (hfind2 : findItem s.inventory id2 = none) :
    (deleteStep id s).2 = .deletedMsg ∧
    getStep req id (deleteStep id s).1 = ((deleteStep id s).1, .errNotFound) ∧
    lookupPhoto f (deleteStep id s).1.photos = none ∧
    deleteStep id (deleteStep id s).1 = ((deleteStep id s).1, .errNotFound) ∧
    deleteStep id2 s = (s, .errNotFound) := by
  have hid := findItem_id _ _ _ hfind
  obtain ⟨pre, post, hinv, hpre⟩ := findItem_decomp _ _ _ hfind
  have hrm : removeFirst s.inventory id = some (item, pre ++ post) := by
    rw [hinv]
    exact removeFirst_decomp pre post id item hpre hid
  have hbne : (f != "") = true := by simpa using hf
  have hstep : deleteStep id s =
      (saveInventory
        { s with inventory := pre ++ post, photos := unlinkPhoto f s.photos },
        .deletedMsg) := by
    simp [deleteStep, hrm, hph, hbne]
  have hrest : ∀ i ∈ pre ++ post, i.id ≠ id := by
    have hpost : ∀ i ∈ post, i.id ≠ id := by
      rw [hinv, List.map_append, List.map_cons] at hnodup
      have hdisj := (List.nodup_append.mp hnodup).2.1
      have hnotmem := (List.nodup_cons.mp hdisj).1
      intro i hi hc
      apply hnotmem
      rw [hid, ← hc]
      exact List.mem_map_of_mem _ hi
    intro i hi
    rcases List.mem_append.mp hi with hi | hi
    · exact hpre i hi
    · exact hpost i hi
  refine ⟨by rw [hstep], ?_, ?_, ?_, ?_⟩
  · rw [hstep]
    have : findItem (pre ++ post) id = none := (findItem_none_iff _ _).mpr hrest
    simp [getStep, saveInventory, this]
  · rw [hstep]
    exact lookupPhoto_unlink f s.photos
  · rw [hstep]
    have : removeFirst (pre ++ post) id = none := (removeFirst_none_iff _ _).mpr hrest
    simp [deleteStep, saveInventory, this]
  · have : removeFirst s.inventory id2 = none :=
      (removeFirst_none_iff _ _).mpr ((findItem_none_iff _ _).mp hfind2)
    simp [deleteStep, this]

/-- C4 witness. -/
theorem C4_witness :
    (deleteStep "1" ⟨[⟨"1", "A", "", some "p1"⟩], [("p1", [1])], some [⟨"1", "A", "", some "p1"⟩]⟩).2 = .deletedMsg ∧
    getStep ⟨"http", "h"⟩ "1" (deleteStep "1" ⟨[⟨"1", "A", "", some "p1"⟩], [("p1", [1])], some [⟨"1", "A", "", some "p1"⟩]⟩).1 =
      ((deleteStep "1" ⟨[⟨"1", "A", "", some "p1"⟩], [("p1", [1])], some [⟨"1", "A", "", some "p1"⟩]⟩).1, .errNotFound) ∧
    lookupPhoto "p1" (deleteStep "1" ⟨[⟨"1", "A", "", some "p1"⟩], [("p1", [1])], some [⟨"1", "A", "", some "p1"⟩]⟩).1.photos = none ∧
    deleteStep "1" ((deleteStep "1" ⟨[⟨"1", "A", "", some "p1"⟩], [("p1", [1])], some [⟨"1", "A", "", some "p1"⟩]⟩).1) =
      ((deleteStep "1" ⟨[⟨"1", "A", "", some "p1"⟩], [("p1", [1])], some [⟨"1", "A", "", some "p1"⟩]⟩).1, .errNotFound) ∧
    deleteStep "9" ⟨[⟨"1", "A", "", some "p1"⟩], [("p1", [1])], some [⟨"1", "A", "", some "p1"⟩]⟩ =
      (⟨[⟨"1", "A", "", some "p1"⟩], [("p1", [1])], some [⟨"1", "A", "", some "p1"⟩]⟩, .errNotFound) :=
  C4_delete_cascades_and_idempotent ⟨"http", "h"⟩
    ⟨[⟨"1", "A", "", some "p1"⟩], [("p1", [1])], some [⟨"1", "A", "", some "p1"⟩]⟩
    "1" ⟨"1", "A", "", some "p1"⟩ "p1" "9"
    (by decide) (by decide) rfl (by decide) (by decide)

theorem registerStep_blank (req : Req) (r : RegisterReq) (s : ServerState)
    (hb : jsBlank r.inventory_name = true) :
    registerStep req r s =
      (multerSave r.file s, .errValidation "inventory_name is required") := by
  simp [registerStep, hb]

/-- C2 as stated fails on the code: when photo bytes accompany a
blank-name register, the upload middleware has already written the bytes
into the photo store before validation runs, and they are not rolled
back — an asset is created as a side effect. -/
theorem C2_counterexample :
    (registerStep ⟨"http", "h"⟩ ⟨some "", none, some ("ph1", [1, 2])⟩
        ⟨[], [], some []⟩).2 = .errValidation "inventory_name is required" ∧
    (registerStep ⟨"http", "h"⟩ ⟨some "", none, some ("ph1", [1, 2])⟩
        ⟨[], [], some []⟩).1.photos = [("ph1", [1, 2])] ∧
    [("ph1", [1, 2])] ≠ ([] : List (String × Bytes)) := by
  decide

/-- C2 amended: a blank-name register fails with a ValidationError, adds
no record, and leaves the snapshot untouched; however, when photo bytes
were supplied, the uploaded file has already been saved to the photo
store by the middleware and is not rolled back. -/
theorem C2_amended_blank_register (req : Req) (r : RegisterReq) (s : ServerState)
    (hb : jsBlank r.inventory_name = true) :
    (registerStep req r s).2 = .errValidation "inventory_name is required" ∧
    (registerStep req r s).1.inventory = s.inventory ∧
    (registerStep req r s).1.dbFile = s.dbFile ∧
    (registerStep req r s).1.photos = (multerSave r.file s).photos := by
  rw [registerStep_blank req r s hb]
  exact ⟨rfl, multerSave_inventory r.file s, multerSave_dbFile r.file s, rfl⟩

/-- C2 amended witness. -/
theorem C2_amended_witness :
    (registerStep ⟨"http", "h"⟩ ⟨some "   ", none, some ("ph2", [3])⟩ ⟨[], [], none⟩).2 =
      .errValidation "inventory_name is required" ∧
    (registerStep ⟨"http", "h"⟩ ⟨some "   ", none, some ("ph2", [3])⟩ ⟨[], [], none⟩).1.inventory = [] ∧
    (registerStep ⟨"http", "h"⟩ ⟨some "   ", none, some ("ph2", [3])⟩ ⟨[], [], none⟩).1.dbFile = none ∧
    (registerStep ⟨"http", "h"⟩ ⟨some "   ", none, some ("ph2", [3])⟩ ⟨[], [], none⟩).1.photos =
      (multerSave (some ("ph2", [3])) ⟨[], [], none⟩).photos :=
  C2_amended_blank_register ⟨"http", "h"⟩ ⟨some "   ", none, some ("ph2", [3])⟩
    ⟨[], [], none⟩ (by decide)

theorem unlinkPhoto_cons_ne (old f : String) (b : Bytes)
    (ps : List (String × Bytes)) (hne : f ≠ old) :
    unlinkPhoto old ((f, b) :: ps) = (f, b) :: unlinkPhoto old ps := by
  simp [unlinkPhoto, List.filter_cons, hne]

theorem putPhotoFull_replace (req : Req) (s : ServerState) (id : String)
    (item : Item) (old f : String) (b : Bytes)
    (hfind : findItem s.inventory id = some item)
    (hold : item.photoFilename = some old) (holdne : old ≠ "") :
    putPhotoFull req id (some (f, b)) s =
      (saveInventory
        { s with
          inventory := setFirst s.inventory id { item with photoFilename := some f },
          photos := unlinkPhoto old ((f, b) :: s.photos) },
        .photoUpdated item.id (photoUrl req { item with photoFilename := some f }),
        [.save f b, .unlink old]) := by
  have hb : (old != "") = true := by simpa using holdne
  simp [putPhotoFull, multerSave, hfind, hold, hb]

/-- C3 as stated fails on the code: in a photo replace, the new asset is
written (by the upload middleware) before the old asset is deleted, not
after — the unlink of the old file does not precede the save of the new
one in the handler's filesystem trace. -/
theorem C3_counterexample :
    putPhotoTrace ⟨"http", "h"⟩ "1" (some ("new1", [9]))
        ⟨[⟨"1", "W", "", some "old1"⟩], [("old1", [5])], some [⟨"1", "W", "", some "old1"⟩]⟩ =
      [.save "new1" [9], .unlink "old1"] ∧
    precedes (.unlink "old1") (.save "new1" [9])
      (putPhotoTrace ⟨"http", "h"⟩ "1" (some ("new1", [9]))
        ⟨[⟨"1", "W", "", some "old1"⟩], [("old1", [5])], some [⟨"1", "W", "", some "old1"⟩]⟩) = false := by
  decide

/-- C3 amended: a photo replace on an existing record with no file
attached fails with a ValidationError (distinct from NotFound on an
unknown id); on a record that already has a photo reference, the new
asset is saved (by the upload middleware) before the old asset is
deleted and the reference updated, and afterwards reading the photo
returns exactly the new bytes while the previously referenced asset is
no longer retrievable. -/
theorem C3_amended_replace_photo (req : Req) (s : ServerState) (id : String)
    (item : Item) (old f : String) (b : Bytes)
    (s2 : ServerState) (id2 : String) (item2 : Item)
    (hfind : findItem s.inventory id = some item)
    (hold : item.photoFilename = some old) (holdne : old ≠ "")
    (hf : f ≠ "") (hne : old ≠ f)
    (hfind2 : findItem s2.inventory id2 = some item2) :
    putPhotoStep req id2 none s2 = (s2, .errValidation "photo file is required") ∧
    putPhotoTrace req id (some (f, b)) s = [.save f b, .unlink old] ∧
    precedes (.save f b) (.unlink old) (putPhotoTrace req id (some (f, b)) s) = true ∧
    getPhotoStep id (putPhotoStep req id (some (f, b)) s).1 =
      ((putPhotoStep req id (some (f, b)) s).1, .fileContent "image/jpeg" b) ∧
    lookupPhoto old (putPhotoStep req id (some (f, b)) s).1.photos = none := by
  have hid := findItem_id _ _ _ hfind
  obtain ⟨pre, post, hinv, hpre⟩ := findItem_decomp _ _ _ hfind
  have hfull := putPhotoFull_replace req s id item old f b hfind hold holdne
  have htr : putPhotoTrace req id (some (f, b)) s = [.save f b, .unlink old] := by
    rw [putPhotoTrace, hfull]
  have hfne : f ≠ old := fun hc => hne hc.symm
  have hphotos : unlinkPhoto old ((f, b) :: s.photos) =
      (f, b) :: unlinkPhoto old s.photos := unlinkPhoto_cons_ne old f b s.photos hfne
  have hstate : (putPhotoStep req id (some (f, b)) s).1 =
      saveInventory
        { s with
          inventory := setFirst s.inventory id { item with photoFilename := some f },
          photos := unlinkPhoto old ((f, b) :: s.photos) } := by
    rw [putPhotoStep, hfull]
  refine ⟨?_, htr, ?_, ?_, ?_⟩
  · simp [putPhotoStep, putPhotoFull, multerSave, hfind2]
  · rw [htr]
    have h1 : ((FsEvent.save f b) == (FsEvent.unlink old)) = false := by
      simp
    have h2 : ((FsEvent.save f b) == (FsEvent.save f b)) = true := by
      simp
    simp [precedes, h1, h2]
  · rw [hstate]
    have hfindnew : findItem
        (setFirst s.inventory id { item with photoFilename := some f }) id =
        some { item with photoFilename := some f } := by
      rw [hinv, setFirst_decomp pre post id item _ hpre hid]
      exact findItem_append_cons pre post _ id hpre hid
    have hlook : lookupPhoto f (unlinkPhoto old ((f, b) :: s.photos)) = some b := by
      rw [hphotos]
      simp [lookupPhoto]
    simp only [saveInventory, getPhotoStep]
    rw [hfindnew]
    simp [truthyFilename, hf, hlook]
  · rw [hstate]
    simp only [saveInventory]
    rw [hphotos]
    have hhead : ((f, b).1 == old) = false := by simpa using hfne
    simp only [lookupPhoto, List.find?_cons, hhead]
    have := lookupPhoto_unlink old s.photos
    simpa [lookupPhoto] using this

/-- C3 amended witness. -/
theorem C3_amended_witness :
    putPhotoStep ⟨"http", "h"⟩ "1" none ⟨[⟨"1", "W", "", some "old1"⟩], [("old1", [5])], some [⟨"1", "W", "", some "old1"⟩]⟩ =
      (⟨[⟨"1", "W", "", some "old1"⟩], [("old1", [5])], some [⟨"1", "W", "", some "old1"⟩]⟩, .errValidation "photo file is required") ∧
    putPhotoTrace ⟨"http", "h"⟩ "1" (some ("new1", [9])) ⟨[⟨"1", "W", "", some "old1"⟩], [("old1", [5])], some [⟨"1", "W", "", some "old1"⟩]⟩ =
      [.save "new1" [9], .unlink "old1"] ∧
    precedes (.save "new1" [9]) (.unlink "old1")
      (putPhotoTrace ⟨"http", "h"⟩ "1" (some ("new1", [9])) ⟨[⟨"1", "W", "", some "old1"⟩], [("old1", [5])], some [⟨"1", "W", "", some "old1"⟩]⟩) = true ∧
    getPhotoStep "1" (putPhotoStep ⟨"http", "h"⟩ "1" (some ("new1", [9])) ⟨[⟨"1", "W", "", some "old1"⟩], [("old1", [5])], some [⟨"1", "W", "", some "old1"⟩]⟩).1 =
      ((putPhotoStep ⟨"http", "h"⟩ "1" (some ("new1", [9])) ⟨[⟨"1", "W", "", some "old1"⟩], [("old1", [5])], some [⟨"1", "W", "", some "old1"⟩]⟩).1,
        .fileContent "image/jpeg" [9]) ∧
    lookupPhoto "old1" (putPhotoStep ⟨"http", "h"⟩ "1" (some ("new1", [9])) ⟨[⟨"1", "W", "", some "old1"⟩], [("old1", [5])], some [⟨"1", "W", "", some "old1"⟩]⟩).1.photos = none :=
  C3_amended_replace_photo ⟨"http", "h"⟩
    ⟨[⟨"1", "W", "", some "old1"⟩], [("old1", [5])], some [⟨"1", "W", "", some "old1"⟩]⟩
    "1" ⟨"1", "W", "", some "old1"⟩ "old1" "new1" [9]
    ⟨[⟨"1", "W", "", some "old1"⟩], [("old1", [5])], some [⟨"1", "W", "", some "old1"⟩]⟩
    "1" ⟨"1", "W", "", some "old1"⟩
    (by decide) rfl (by decide) (by decide) (by decide) (by decide)

/-! ### Id generation facts -/

/-- `Math.max(0, ...ids)` over the numeric ids of the collection. -/
def maxNumId (inv : List Item) : Nat := jsMax0 (inv.map (fun i => jsNumber i.id))

/-- The state at process start with a fresh cache directory. -/
def initialState : ServerState := ⟨[], [], none⟩

/-- A sequence of `POST /register` calls, applied in order. -/
def runRegisters (req : Req) (rs : List RegisterReq) (s : ServerState) : ServerState :=
  rs.foldl (fun st r => (registerStep req r st).1) s

theorem registerStep_valid (req : Req) (r : RegisterReq) (s : ServerState)
    (h : jsBlank r.inventory_name = false) :
    (registerStep req r s).1.inventory = s.inventory ++
      [⟨genId s.inventory, r.inventory_name.getD "", r.description.getD "",
        r.file.map (fun e => e.1)⟩] := by
  simp [registerStep, h, saveInventory, multerSave_inventory]

theorem genId_gt (inv : List Item) (i : Item) (hi : i ∈ inv) :
    jsNumber i.id < jsNumber (genId inv) := by
  unfold genId
  rw [jsNumber_natToString]
  have hmem : jsNumber i.id ∈ inv.map (fun j => jsNumber j.id) :=
    List.mem_map_of_mem _ hi
  have := le_foldl_max (inv.map (fun j => jsNumber j.id)) 0 _ hmem
  unfold jsMax0
  omega

theorem genId_not_mem (inv : List Item) : genId inv ∉ inv.map (fun i => i.id) := by
  intro hmem
  obtain ⟨i, hi, hid⟩ := List.mem_map.mp hmem
  have hlt := genId_gt inv i hi
  rw [hid] at hlt
  exact lt_irrefl _ hlt

theorem maxNumId_attained (inv : List Item) (hne : inv ≠ []) :
    ∃ i ∈ inv, maxNumId inv = jsNumber i.id := by
  unfold maxNumId jsMax0
  rcases foldl_max_mem (inv.map (fun i => jsNumber i.id)) 0 with h | h
  · obtain ⟨i, hi⟩ := List.exists_mem_of_ne_nil inv hne
    refine ⟨i, hi, ?_⟩
    have hle := le_foldl_max (inv.map (fun j => jsNumber j.id)) 0 _
      (List.mem_map_of_mem _ hi)
    omega
  · obtain ⟨i, hi, hq⟩ := List.mem_map.mp h
    exact ⟨i, hi, hq.symm⟩

theorem runRegisters_nodup (req : Req) (rs : List RegisterReq) (s : ServerState)
    (h : (s.inventory.map (fun i => i.id)).Nodup) :
    ((runRegisters req rs s).inventory.map (fun i => i.id)).Nodup := by
  induction rs generalizing s with
  | nil => exact h
  | cons r t ih =>
    have hstep : runRegisters req (r :: t) s =
        runRegisters req t (registerStep req r s).1 := rfl
    rw [hstep]
    apply ih
    by_cases hb : jsBlank r.inventory_name
    · rw [registerStep_blank req r s hb]
      show ((multerSave r.file s).inventory.map (fun i => i.id)).Nodup
      rw [multerSave_inventory]
      exact h
    · rw [registerStep_valid req r s (by simpa using hb), List.map_append]
      refine List.Nodup.append h (List.nodup_singleton _) ?_
      intro x hx hmem
      simp only [List.map_cons, List.map_nil, List.mem_singleton] at hmem
      subst hmem
      exact genId_not_mem s.inventory hx

/-- C5: ids are assigned as String(max of the numeric ids currently
present, plus one); the empty collection yields "1"; each new id
numerically exceeds every current id, so register sequences produce
pairwise-distinct ids. -/
theorem C5_id_assignment (req : Req) (s : ServerState) (r : RegisterReq)
    (hval : jsBlank r.inventory_name = false)
    (rs : List RegisterReq)
    (_hnames : (rs.filterMap (fun q => q.inventory_name)).Nodup)
    (_hvalid : ∀ q ∈ rs, jsBlank q.inventory_name = false) :
    genId [] = "1" ∧
    genId s.inventory = natToString (maxNumId s.inventory + 1) ∧
    (s.inventory ≠ [] → ∃ i ∈ s.inventory, maxNumId s.inventory = jsNumber i.id) ∧
    (∃ item : Item,
      (registerStep req r s).1.inventory = s.inventory ++ [item] ∧
      item.id = genId s.inventory ∧
      (∀ i ∈ s.inventory, jsNumber i.id < jsNumber item.id) ∧
      item.id ∉ s.inventory.map (fun i => i.id)) ∧
    ((runRegisters req rs initialState).inventory.map (fun i => i.id)).Nodup := by
  refine ⟨by decide, rfl, maxNumId_attained s.inventory, ?_,
    runRegisters_nodup req rs initialState (by simp [initialState])⟩
  exact ⟨_, registerStep_valid req r s hval, rfl,
    fun i hi => genId_gt s.inventory i hi, genId_not_mem s.inventory⟩

/-- C5 witness. -/
theorem C5_witness :
    genId [] = "1" ∧
    genId [⟨"1", "A", "", none⟩] = natToString (maxNumId [⟨"1", "A", "", none⟩] + 1) ∧
    (([⟨"1", "A", "", none⟩] : List Item) ≠ [] →
      ∃ i ∈ [(⟨"1", "A", "", none⟩ : Item)], maxNumId [⟨"1", "A", "", none⟩] = jsNumber i.id) ∧
    (∃ item : Item,
      (registerStep ⟨"http", "h"⟩ ⟨some "B", none, none⟩ ⟨[⟨"1", "A", "", none⟩], [], some [⟨"1", "A", "", none⟩]⟩).1.inventory =
        [⟨"1", "A", "", none⟩] ++ [item] ∧
      item.id = genId [⟨"1", "A", "", none⟩] ∧
      (∀ i ∈ [(⟨"1", "A", "", none⟩ : Item)], jsNumber i.id < jsNumber item.id) ∧
      item.id ∉ ([⟨"1", "A", "", none⟩] : List Item).map (fun i => i.id)) ∧
    ((runRegisters ⟨"http", "h"⟩ [⟨some "A", none, none⟩, ⟨some "B", none, none⟩] initialState).inventory.map
      (fun i => i.id)).Nodup :=
  C5_id_assignment ⟨"http", "h"⟩ ⟨[⟨"1", "A", "", none⟩], [], some [⟨"1", "A", "", none⟩]⟩
    ⟨some "B", none, none⟩ (by decide)
    [⟨some "A", none, none⟩, ⟨some "B", none, none⟩] (by decide) (by decide)

/-! ### Prop-level view of the no-orphan invariant -/

theorem refsResolve_iff (s : ServerState) : refsResolve s = true ↔
    ∀ i ∈ s.inventory, ∀ f, i.photoFilename = some f →
      s.photos.countP (fun e => e.1 == f) = 1 := by
  simp only [refsResolve, List.all_eq_true]
  constructor
  · intro h i hi f hf
    have hh := h i hi
    rw [hf] at hh
    simpa using hh
  · intro h i hi
    cases hph : i.photoFilename with
    | none => rfl
    | some f => simpa using h i hi f hph

theorem allReferenced_iff (s : ServerState) : allReferenced s = true ↔
    ∀ e ∈ s.photos, ∃ i ∈ s.inventory, i.photoFilename = some e.1 := by
  simp [allReferenced, List.all_eq_true, List.any_eq_true]

/-- The wellformedness invariant as a proposition over the collection and
the photo directory. -/
def InvOK (inv : List Item) (ps : List (String × Bytes)) : Prop :=
  (∀ i ∈ inv, ∀ f, i.photoFilename = some f → ps.countP (fun e => e.1 == f) = 1) ∧
  (∀ e ∈ ps, ∃ i ∈ inv, i.photoFilename = some e.1) ∧
  (refKeys inv).Nodup ∧
  (∀ i ∈ inv, i.photoFilename ≠ some "")

theorem wfState_iff_InvOK (s : ServerState) : wfState s ↔ InvOK s.inventory s.photos := by
  unfold wfState InvOK noOrphans
  rw [Bool.and_eq_true, refsResolve_iff, allReferenced_iff]
  tauto

/-! ### refKeys lemmas -/

theorem refKeys_append (l1 l2 : List Item) :
    refKeys (l1 ++ l2) = refKeys l1 ++ refKeys l2 := by
  simp [refKeys]

theorem refKeys_cons_none (i : Item) (l : List Item) (h : i.photoFilename = none) :
    refKeys (i :: l) = refKeys l := by
  simp [refKeys, List.filterMap_cons, h]

theorem refKeys_cons_some (i : Item) (l : List Item) (f : String)
    (h : i.photoFilename = some f) : refKeys (i :: l) = f :: refKeys l := by
  simp [refKeys, List.filterMap_cons, h]

theorem mem_refKeys (g : String) (inv : List Item) :
    g ∈ refKeys inv ↔ ∃ i ∈ inv, i.photoFilename = some g := by
  simp [refKeys, List.mem_filterMap]

/-! ### countP lemmas for the photo directory -/

theorem countP_eq_of_forall {α : Type} (l : List α) (p q : α → Bool)
    (h : ∀ a ∈ l, p a = q a) : l.countP p = l.countP q := by
  induction l with
  | nil => rfl
  | cons x t ih =>
    rw [List.countP_cons, List.countP_cons, h x (by simp),
      ih (fun a ha => h a (by simp [ha]))]

theorem countP_unlink_ne (ps : List (String × Bytes)) (g fl : String) (hne : g ≠ fl) :
    (unlinkPhoto fl ps).countP (fun e => e.1 == g) =
      ps.countP (fun e => e.1 == g) := by
  unfold unlinkPhoto
  rw [List.countP_filter]
  apply countP_eq_of_forall
  intro a _
  by_cases hag : a.1 = g
  · simp [hag]
    exact hne
  · simp [hag]

theorem countP_zero_fresh (ps : List (String × Bytes)) (f : String)
    (hfresh : ∀ e ∈ ps, e.1 ≠ f) : ps.countP (fun e => e.1 == f) = 0 :=
  List.countP_eq_zero.mpr (fun e he => by simpa using hfresh e he)

theorem key_exists_of_count_one (ps : List (String × Bytes)) (g : String)
    (hc : ps.countP (fun e => e.1 == g) = 1) : ∃ e ∈ ps, e.1 = g := by
  have hpos : 0 < ps.countP (fun e => e.1 == g) := by omega
  obtain ⟨e, he, hp⟩ := List.countP_pos_iff.mp hpos
  exact ⟨e, he, by simpa using hp⟩

theorem refKey_ne_fresh (inv : List Item) (ps : List (String × Bytes))
    (h1 : ∀ i ∈ inv, ∀ f, i.photoFilename = some f →
      ps.countP (fun e => e.1 == f) = 1)
    (f : String) (hfresh : ∀ e ∈ ps, e.1 ≠ f)
    (g : String) (hg : g ∈ refKeys inv) : g ≠ f := by
  obtain ⟨i, hi, href⟩ := (mem_refKeys g inv).mp hg
  obtain ⟨e, he, hge⟩ := key_exists_of_count_one ps g (h1 i hi g href)
  intro hc
  exact hfresh e he (hc ▸ hge)

/-! ### Preservation of the invariant by the collection operations -/

theorem refKeys_replace (pre post : List Item) (item item' : Item)
    (hsame : item'.photoFilename = item.photoFilename) :
    refKeys (pre ++ item' :: post) = refKeys (pre ++ item :: post) := by
  rw [refKeys_append, refKeys_append]
  congr 1
  cases hph : item.photoFilename with
  | none => rw [refKeys_cons_none _ _ (hsame.trans hph), refKeys_cons_none _ _ hph]
  | some g => rw [refKeys_cons_some _ _ g (hsame.trans hph), refKeys_cons_some _ _ g hph]

theorem InvOK_replace (pre post : List Item) (item item' : Item)
    (ps : List (String × Bytes))
    (hsame : item'.photoFilename = item.photoFilename)
    (h : InvOK (pre ++ item :: post) ps) : InvOK (pre ++ item' :: post) ps := by
  obtain ⟨h1, h2, h3, h4⟩ := h
  have hmid : item ∈ pre ++ item :: post := by simp
  refine ⟨?_, ?_, ?_, ?_⟩
  · intro i hi f hf
    rcases (by simpa using hi : i ∈ pre ∨ i = item' ∨ i ∈ post) with hp | rfl | hp
    · exact h1 i (by simp [hp]) f hf
    · exact h1 item hmid f (hsame.symm.trans hf)
    · exact h1 i (by simp [hp]) f hf
  · intro e he
    obtain ⟨i, hi, href⟩ := h2 e he
    rcases (by simpa using hi : i ∈ pre ∨ i = item ∨ i ∈ post) with hp | rfl | hp
    · exact ⟨i, by simp [hp], href⟩
    · exact ⟨item', by simp, hsame.trans href⟩
    · exact ⟨i, by simp [hp], href⟩
  · rw [refKeys_replace pre post item item' hsame]
    exact h3
  · intro i hi
    rcases (by simpa using hi : i ∈ pre ∨ i = item' ∨ i ∈ post) with hp | rfl | hp
    · exact h4 i (by simp [hp])
    · rw [hsame]
      exact h4 item hmid
    · exact h4 i (by simp [hp])

theorem InvOK_insert_nophoto (pre post : List Item) (item' : Item)
    (ps : List (String × Bytes))
    (hph' : item'.photoFilename = none)
    (h : InvOK (pre ++ post) ps) : InvOK (pre ++ item' :: post) ps := by
  obtain ⟨h1, h2, h3, h4⟩ := h
  refine ⟨?_, ?_, ?_, ?_⟩
  · intro i hi f hf
    rcases (by simpa using hi : i ∈ pre ∨ i = item' ∨ i ∈ post) with hp | rfl | hp
    · exact h1 i (by simp [hp]) f hf
    · rw [hph'] at hf
      cases hf
    · exact h1 i (by simp [hp]) f hf
  · intro e he
    obtain ⟨i, hi, href⟩ := h2 e he
    rcases (by simpa using hi : i ∈ pre ∨ i ∈ post) with hp | hp
    · exact ⟨i, by simp [hp], href⟩
    · exact ⟨i, by simp [hp], href⟩
  · rw [refKeys_append, refKeys_cons_none _ _ hph']
    rw [refKeys_append] at h3
    exact h3
  · intro i hi
    rcases (by simpa using hi : i ∈ pre ∨ i = item' ∨ i ∈ post) with hp | rfl | hp
    · exact h4 i (by simp [hp])
    · rw [hph']
      simp
    · exact h4 i (by simp [hp])

theorem InvOK_insert_photo (pre post : List Item) (item' : Item)
    (ps : List (String × Bytes)) (f : String) (b : Bytes)
    (hph' : item'.photoFilename = some f) (hf : f ≠ "")
    (hfresh : ∀ e ∈ ps, e.1 ≠ f)
    (h : InvOK (pre ++ post) ps) :
    InvOK (pre ++ item' :: post) ((f, b) :: ps) := by
  obtain ⟨h1, h2, h3, h4⟩ := h
  have hfref : ∀ g ∈ refKeys (pre ++ post), g ≠ f :=
    refKey_ne_fresh (pre ++ post) ps h1 f hfresh
  refine ⟨?_, ?_, ?_, ?_⟩
  · intro i hi g hg
    rcases (by simpa using hi : i ∈ pre ∨ i = item' ∨ i ∈ post) with hp | rfl | hp
    · have hgmem : g ∈ refKeys (pre ++ post) := by
        rw [refKeys_append, List.mem_append]
        exact Or.inl ((mem_refKeys g pre).mpr ⟨i, hp, hg⟩)
      have hne : ((f, b).1 == g) = false := by
        simp only [beq_eq_false_iff_ne, ne_eq]
        exact fun hc => hfref g hgmem hc.symm
      rw [List.countP_cons, hne]
      simpa using h1 i (by simp [hp]) g hg
    · obtain rfl : g = f := by
        rw [hph'] at hg
        injection hg with h'
        exact h'.symm
      rw [List.countP_cons]
      simp [countP_zero_fresh ps g hfresh]
    · have hgmem : g ∈ refKeys (pre ++ post) := by
        rw [refKeys_append, List.mem_append]
        exact Or.inr ((mem_refKeys g post).mpr ⟨i, hp, hg⟩)
      have hne : ((f, b).1 == g) = false := by
        simp only [beq_eq_false_iff_ne, ne_eq]
        exact fun hc => hfref g hgmem hc.symm
      rw [List.countP_cons, hne]
      simpa using h1 i (by simp [hp]) g hg
  · intro e he
    rcases List.mem_cons.mp he with rfl | he'
    · exact ⟨item', by simp, hph'⟩
    · obtain ⟨i, hi, href⟩ := h2 e he'
      rcases (by simpa using hi : i ∈ pre ∨ i ∈ post) with hp | hp
      · exact ⟨i, by simp [hp], href⟩
      · exact ⟨i, by simp [hp], href⟩
  · rw [refKeys_append, refKeys_cons_some _ _ f hph']
    rw [refKeys_append] at h3 hfref
    rw [List.nodup_middle, List.nodup_cons]
    exact ⟨fun hmem => hfref f hmem rfl, h3⟩
  · intro i hi
    rcases (by simpa using hi : i ∈ pre ∨ i = item' ∨ i ∈ post) with hp | rfl | hp
    · exact h4 i (by simp [hp])
    · rw [hph']
      simpa using hf
    · exact h4 i (by simp [hp])

theorem InvOK_remove_nophoto (pre post : List Item) (removed : Item)
    (ps : List (String × Bytes))
    (hph : removed.photoFilename = none)
    (h : InvOK (pre ++ removed :: post) ps) : InvOK (pre ++ post) ps := by
  obtain ⟨h1, h2, h3, h4⟩ := h
  refine ⟨?_, ?_, ?_, ?_⟩
  · intro i hi f hf
    have : i ∈ pre ++ removed :: post := by
      rcases (by simpa using hi : i ∈ pre ∨ i ∈ post) with hp | hp <;> simp [hp]
    exact h1 i this f hf
  · intro e he
    obtain ⟨i, hi, href⟩ := h2 e he
    rcases (by simpa using hi : i ∈ pre ∨ i = removed ∨ i ∈ post) with hp | rfl | hp
    · exact ⟨i, by simp [hp], href⟩
    · rw [hph] at href
      cases href
    · exact ⟨i, by simp [hp], href⟩
  · rw [refKeys_append]
    rw [refKeys_append, refKeys_cons_none _ _ hph] at h3
    exact h3
  · intro i hi
    have : i ∈ pre ++ removed :: post := by
      rcases (by simpa using hi : i ∈ pre ∨ i ∈ post) with hp | hp <;> simp [hp]
    exact h4 i this

theorem InvOK_remove_photo (pre post : List Item) (removed : Item)
    (ps : List (String × Bytes)) (fl : String)
    (hph : removed.photoFilename = some fl)
    (h : InvOK (pre ++ removed :: post) ps) :
    InvOK (pre ++ post) (unlinkPhoto fl ps) := by
  obtain ⟨h1, h2, h3, h4⟩ := h
  have hkeys : refKeys (pre ++ removed :: post) = refKeys pre ++ fl :: refKeys post := by
    rw [refKeys_append, refKeys_cons_some _ _ fl hph]
  rw [hkeys] at h3
  have h3c := List.nodup_middle.mp h3
  have hflnot : fl ∉ refKeys pre ++ refKeys post := (List.nodup_cons.mp h3c).1
  have h3r : (refKeys pre ++ refKeys post).Nodup := (List.nodup_cons.mp h3c).2
  refine ⟨?_, ?_, ?_, ?_⟩
  · intro i hi g hg
    have himem : i ∈ pre ++ removed :: post := by
      rcases (by simpa using hi : i ∈ pre ∨ i ∈ post) with hp | hp <;> simp [hp]
    have hgmem : g ∈ refKeys pre ++ refKeys post := by
      rcases (by simpa using hi : i ∈ pre ∨ i ∈ post) with hp | hp
      · exact List.mem_append.mpr (Or.inl ((mem_refKeys g pre).mpr ⟨i, hp, hg⟩))
      · exact List.mem_append.mpr (Or.inr ((mem_refKeys g post).mpr ⟨i, hp, hg⟩))
    have hgfl : g ≠ fl := fun hc => hflnot (hc ▸ hgmem)
    rw [countP_unlink_ne ps g fl hgfl]
    exact h1 i himem g hg
  · intro e he
    have he' : e ∈ ps ∧ e.1 ≠ fl := by
      have hm := List.mem_filter.mp he
      exact ⟨hm.1, by simpa using hm.2⟩
    obtain ⟨i, hi, href⟩ := h2 e he'.1
    rcases (by simpa using hi : i ∈ pre ∨ i = removed ∨ i ∈ post) with hp | rfl | hp
    · exact ⟨i, by simp [hp], href⟩
    · exfalso
      rw [hph] at href
      injection href with h'
      exact he'.2 h'.symm
    · exact ⟨i, by simp [hp], href⟩
  · rw [refKeys_append]
    exact h3r
  · intro i hi
    have : i ∈ pre ++ removed :: post := by
      rcases (by simpa using hi : i ∈ pre ∨ i ∈ post) with hp | hp <;> simp [hp]
    exact h4 i this

theorem removeFirst_some_decomp (inv : List Item) (id : String) (r : Item)
    (inv' : List Item) (h : removeFirst inv id = some (r, inv')) :
    ∃ pre post, inv = pre ++ r :: post ∧ inv' = pre ++ post := by
  induction inv generalizing inv' with
  | nil => simp [removeFirst] at h
  | cons a t ih =>
    unfold removeFirst at h
    by_cases ha : (a.id == id) = true
    · rw [if_pos ha] at h
      injection h with h1
      injection h1 with h2 h3
      subst h2
      subst h3
      exact ⟨[], t, rfl, rfl⟩
    · rw [if_neg ha] at h
      cases hrt : removeFirst t id with
      | none =>
        rw [hrt] at h
        cases h
      | some q =>
        obtain ⟨r2, rest'⟩ := q
        rw [hrt] at h
        injection h with h1
        injection h1 with h2 h3
        subst h2
        subst h3
        obtain ⟨pre, post, hinv, hrest⟩ := ih rest' hrt
        exact ⟨a :: pre, post, by simp [hinv], by simp [hrest]⟩

theorem registerStep_photos (req : Req) (r : RegisterReq) (s : ServerState) :
    (registerStep req r s).1.photos = (multerSave r.file s).photos := by
  by_cases hb : jsBlank r.inventory_name <;> simp [registerStep, hb, saveInventory]

theorem getStep_state (req : Req) (id : String) (s : ServerState) :
    (getStep req id s).1 = s := by
  unfold getStep
  cases findItem s.inventory id <;> rfl

theorem getPhotoStep_state (id : String) (s : ServerState) :
    (getPhotoStep id s).1 = s := by
  unfold getPhotoStep
  repeat' split
  all_goals rfl

theorem wf_registerStep (req : Req) (r : RegisterReq) (s : ServerState)
    (hval : jsBlank r.inventory_name = false)
    (hfresh : freshFile r.file s = true)
    (h : wfState s) : wfState (registerStep req r s).1 := by
  rw [wfState_iff_InvOK] at h ⊢
  rw [registerStep_valid req r s hval, registerStep_photos]
  cases hfile : r.file with
  | none =>
    simp only [multerSave, Option.map_none']
    refine InvOK_insert_nophoto s.inventory [] _ s.photos rfl ?_
    rw [List.append_nil]
    exact h
  | some fb =>
    obtain ⟨f, b⟩ := fb
    rw [hfile] at hfresh
    have hfr : f ≠ "" ∧ ∀ e ∈ s.photos, e.1 ≠ f := by
      simpa [freshFile, List.all_eq_true] using hfresh
    simp only [multerSave, Option.map_some']
    refine InvOK_insert_photo s.inventory [] _ s.photos f b rfl hfr.1 hfr.2 ?_
    rw [List.append_nil]
    exact h

theorem wf_updateStep (req : Req) (id : String) (r : UpdateReq) (s : ServerState)
    (h : wfState s) : wfState (updateStep req id r s).1 := by
  cases hf : findItem s.inventory id with
  | none => simpa [updateStep, hf] using h
  | some item =>
    have hid := findItem_id _ _ _ hf
    obtain ⟨pre, post, hinv, hpre⟩ := findItem_decomp _ _ _ hf
    have hstate : (updateStep req id r s).1 =
        saveInventory { s with inventory := setFirst s.inventory id { item with inventory_name := r.inventory_name.getD item.inventory_name, description := r.description.getD item.description } } := by
      simp [updateStep, hf]
    rw [wfState_iff_InvOK] at h ⊢
    rw [hstate]
    show InvOK (setFirst s.inventory id _) s.photos
    rw [hinv, setFirst_decomp pre post id item _ hpre hid]
    exact InvOK_replace pre post item _ s.photos rfl (hinv ▸ h)

theorem wf_deleteStep (id : String) (s : ServerState) (h : wfState s) :
    wfState (deleteStep id s).1 := by
  cases hrm : removeFirst s.inventory id with
  | none => simpa [deleteStep, hrm] using h
  | some p =>
    obtain ⟨removed, inv'⟩ := p
    obtain ⟨pre, post, hinv, hinv'⟩ := removeFirst_some_decomp _ _ _ _ hrm
    rw [wfState_iff_InvOK] at h
    have hmem : removed ∈ s.inventory := by
      rw [hinv]
      simp
    cases hph : removed.photoFilename with
    | none =>
      have hstate : (deleteStep id s).1 = saveInventory { s with inventory := inv' } := by
        simp [deleteStep, hrm, hph]
      rw [wfState_iff_InvOK, hstate]
      show InvOK inv' s.photos
      rw [hinv']
      exact InvOK_remove_nophoto pre post removed s.photos hph (hinv ▸ h)
    | some fl =>
      have hflne : fl ≠ "" := by
        have h4 := h.2.2.2 removed hmem
        rw [hph] at h4
        intro hc
        exact h4 (by rw [hc])
      have hbne : (fl != "") = true := by simpa using hflne
      have hstate : (deleteStep id s).1 =
          saveInventory { s with inventory := inv', photos := unlinkPhoto fl s.photos } := by
        simp [deleteStep, hrm, hph, hbne]
      rw [wfState_iff_InvOK, hstate]
      show InvOK inv' (unlinkPhoto fl s.photos)
      rw [hinv']
      exact InvOK_remove_photo pre post removed s.photos fl hph (hinv ▸ h)

theorem wf_putPhotoStep (req : Req) (id : String) (f : String) (b : Bytes)
    (s : ServerState) (item : Item)
    (hfind : findItem s.inventory id = some item)
    (hfresh : freshFile (some (f, b)) s = true)
    (h : wfState s) : wfState (putPhotoStep req id (some (f, b)) s).1 := by
  have hid := findItem_id _ _ _ hfind
  obtain ⟨pre, post, hinv, hpre⟩ := findItem_decomp _ _ _ hfind
  have hfr : f ≠ "" ∧ ∀ e ∈ s.photos, e.1 ≠ f := by
    simpa [freshFile, List.all_eq_true] using hfresh
  rw [wfState_iff_InvOK] at h
  cases hph : item.photoFilename with
  | none =>
    have hstate : (putPhotoStep req id (some (f, b)) s).1 =
        saveInventory { s with
          inventory := setFirst s.inventory id { item with photoFilename := some f },
          photos := (f, b) :: s.photos } := by
      simp [putPhotoStep, putPhotoFull, multerSave, hfind, hph]
    rw [wfState_iff_InvOK, hstate]
    show InvOK (setFirst s.inventory id _) ((f, b) :: s.photos)
    rw [hinv, setFirst_decomp pre post id item _ hpre hid]
    have h0 : InvOK (pre ++ post) s.photos :=
      InvOK_remove_nophoto pre post item s.photos hph (hinv ▸ h)
    exact InvOK_insert_photo pre post _ s.photos f b rfl hfr.1 hfr.2 h0
  | some old =>
    have holdne : old ≠ "" := by
      have h4 := h.2.2.2 item (by rw [hinv]; simp)
      rw [hph] at h4
      intro hc
      exact h4 (by rw [hc])
    have hbne : (old != "") = true := by simpa using holdne
    have hstate : (putPhotoStep req id (some (f, b)) s).1 =
        saveInventory { s with
          inventory := setFirst s.inventory id { item with photoFilename := some f },
          photos := unlinkPhoto old ((f, b) :: s.photos) } := by
      simp [putPhotoStep, putPhotoFull, multerSave, hfind, hph, hbne]
    have hfold : old ≠ f := by
      have hmem : old ∈ refKeys s.inventory :=
        (mem_refKeys old s.inventory).mpr ⟨item, by rw [hinv]; simp, hph⟩
      exact refKey_ne_fresh s.inventory s.photos h.1 f hfr.2 old hmem
    rw [wfState_iff_InvOK, hstate]
    show InvOK (setFirst s.inventory id _) (unlinkPhoto old ((f, b) :: s.photos))
    rw [hinv, setFirst_decomp pre post id item _ hpre hid,
      unlinkPhoto_cons_ne old f b s.photos (fun hc => hfold hc.symm)]
    have h0 : InvOK (pre ++ post) (unlinkPhoto old s.photos) :=
      InvOK_remove_photo pre post item s.photos old hph (hinv ▸ h)
    refine InvOK_insert_photo pre post _ _ f b rfl hfr.1 ?_ h0
    intro e he
    exact hfr.2 e (List.mem_filter.mp he).1

/-! ### The operations as one step relation -/

/-- One inbound request, as dispatched by the routes of main.js. -/
inductive Op where
  | opRegister (r : RegisterReq)
  | opList
  | opGet (id : String)
  | opUpdate (id : String) (r : UpdateReq)
  | opDelete (id : String)
  | opGetPhoto (id : String)
  | opPutPhoto (id : String) (file : Option (String × Bytes))
deriving Repr, DecidableEq

/-- The state after handling one request. -/
def applyOp (req : Req) (op : Op) (s : ServerState) : ServerState :=
  match op with
  | .opRegister r => (registerStep req r s).1
  | .opList => (listStep req s).1
  | .opGet id => (getStep req id s).1
  | .opUpdate id r => (updateStep req id r s).1
  | .opDelete id => (deleteStep id s).1
  | .opGetPhoto id => (getPhotoStep id s).1
  | .opPutPhoto id file => (putPhotoStep req id file s).1

/-- Success conditions: a register call carries a non-blank name, and a
photo replace addresses an existing record; either upload is fresh. -/
def opOk (op : Op) (s : ServerState) : Bool :=
  match op with
  | .opRegister r => !jsBlank r.inventory_name && freshFile r.file s
  | .opPutPhoto id file =>
    (findItem s.inventory id).isSome && file.isSome && freshFile file s
  | _ => true

/-- C1 as stated is false: a photo replace addressed to an id that is
not in the collection completes (with NotFound) yet leaves an asset in
the photo store that no record references. -/
theorem C1_counterexample :
    noOrphans ⟨[], [], some []⟩ = true ∧
    noOrphans (putPhotoStep ⟨"http", "h"⟩ "7" (some ("ff", [3])) ⟨[], [], some []⟩).1 = false := by
  decide

/-- C1 amended: from a wellformed state (invariant holds, references are
pairwise distinct and non-empty), every operation that does not drop an
upload on a failure path — any list/get/read, any update, any delete,
a register with a non-blank name, a photo replace on an existing id,
uploads fresh — preserves the no-orphan invariant; the failure paths
that received an upload (blank-name register, photo replace on an
unknown id) do leave an orphaned asset, as the counterexample shows. -/
theorem C1_amended_invariant_preserved (req : Req) (op : Op) (s : ServerState)
    (hwf : wfState s) (hok : opOk op s = true) : wfState (applyOp req op s) := by
  cases op with
  | opRegister r =>
    simp only [opOk, Bool.and_eq_true, Bool.not_eq_true'] at hok
    exact wf_registerStep req r s hok.1 hok.2 hwf
  | opList => exact hwf
  | opGet id =>
    show wfState (getStep req id s).1
    rw [getStep_state]
    exact hwf
  | opUpdate id r => exact wf_updateStep req id r s hwf
  | opDelete id => exact wf_deleteStep id s hwf
  | opGetPhoto id =>
    show wfState (getPhotoStep id s).1
    rw [getPhotoStep_state]
    exact hwf
  | opPutPhoto id file =>
    simp only [opOk, Bool.and_eq_true, Option.isSome_iff_exists] at hok
    obtain ⟨⟨⟨item, hitem⟩, ⟨fb, hfb⟩⟩, hfresh⟩ := hok
    subst hfb
    obtain ⟨f, b⟩ := fb
    exact wf_putPhotoStep req id f b s item hitem hfresh hwf

/-- C1 amended witness: a register with a fresh upload on a wellformed
state. -/
theorem C1_amended_witness :
    wfState (applyOp ⟨"http", "h"⟩ (.opRegister ⟨some "B", none, some ("p2", [2])⟩)
      ⟨[⟨"1", "A", "", some "p1"⟩], [("p1", [1])], some [⟨"1", "A", "", some "p1"⟩]⟩) :=
  C1_amended_invariant_preserved ⟨"http", "h"⟩
    (.opRegister ⟨some "B", none, some ("p2", [2])⟩)
    ⟨[⟨"1", "A", "", some "p1"⟩], [("p1", [1])], some [⟨"1", "A", "", some "p1"⟩]⟩
    (by decide) (by decide)
